import Mathlib

/-!
Verification development for the Video-Pipeline upscale service
(`src/tools/upscale_service.py`).

The transform engine (the RRDBNet network), image decode/encode and the cv2
filter primitives are external capabilities; they are modelled as opaque
function parameters.  Everything the repository's own code computes — the
tile grid, the padded-tile coordinate arithmetic, the crop-and-place
reassembly, the scale normalization, the channel bookkeeping, the
post-processing arithmetic and the request-server dispatch — is embedded
directly from the source.  Python/NumPy float arithmetic is modelled as
exact rational arithmetic.
-/

set_option maxHeartbeats 1000000

namespace VideoPipeline

/-- Fixed upscale ratio of the transform engine: the model is constructed as
`RRDBNet(..., scale=4)` and `tile_process` reads `self.model.scale`. -/
def R : ℕ := 4

/-- An image buffer: a dense 2-D grid indexed by (row, column).  The payload
type `α` stands for one pixel (the tiling logic never inspects channels). -/
@[ext]
structure Img (α : Type) where
  height : ℕ
  width : ℕ
  pix : ℕ → ℕ → α

/-- The eight coordinates `tile_process` computes for one tile:
`input_start_x/input_end_x/input_start_y/input_end_y` (the owning region)
and their padded variants (`*_pad`). -/
structure TC where
  isx : ℕ
  iex : ℕ
  isy : ℕ
  iey : ℕ
  isxp : ℕ
  iexp : ℕ
  isyp : ℕ
  ieyp : ℕ

/-- Coordinates of tile `(tx, ty)` for an image of width `W`, height `H`,
tile size `T` and padding `P`, exactly as in `tile_process` lines 152-165:
`ofs = tx*T`, ends clamped by `min` at the image border, pad start clamped
at 0 (`Nat` subtraction is the `max(... - tile_pad, 0)` of the source) and
pad end clamped by `min` at the border. -/
def tileCoords (W H T P tx ty : ℕ) : TC :=
  { isx := tx * T
    iex := min (tx * T + T) W
    isy := ty * T
    iey := min (ty * T + T) H
    isxp := tx * T - P
    iexp := min (min (tx * T + T) W + P) W
    isyp := ty * T - P
    ieyp := min (min (ty * T + T) H + P) H }

/-- The padded input tile `img[:, :, isyp:ieyp, isxp:iexp]` handed to the
engine. -/
def paddedTile {α : Type} (img : Img α) (c : TC) : Img α :=
  ⟨c.ieyp - c.isyp, c.iexp - c.isxp, fun i j => img.pix (c.isyp + i) (c.isxp + j)⟩

/-- The pixel the reassembly places at output position `(oy, ox)` from the
tile with coordinates `c`: the engine output on the padded tile, read at the
crop offset `tile_idx = (input_start - input_start_pad) * scale` plus the
position inside the tile's output region (whose top-left corner is
`(isy*R, isx*R)`). -/
def tileValue {α : Type} (E : Img α → Img α) (img : Img α) (c : TC) (oy ox : ℕ) : α :=
  (E (paddedTile img c)).pix
    ((c.isy - c.isyp) * R + (oy - c.isy * R))
    ((c.isx - c.isxp) * R + (ox - c.isx * R))

/-- Output region owned by tile `(tx, ty)`: rows `[isy*R, iey*R)`, columns
`[isx*R, iex*R)` — the slice of `output` the source assigns for this tile. -/
def outRegion (W H T tx ty oy ox : ℕ) : Prop :=
  ty * T * R ≤ oy ∧ oy < min (ty * T + T) H * R ∧
  tx * T * R ≤ ox ∧ ox < min (tx * T + T) W * R

instance (W H T tx ty oy ox : ℕ) : Decidable (outRegion W H T tx ty oy ox) := by
  unfold outRegion; infer_instance

/-- Source-coordinate owning region of tile `(tx, ty)`: the unpadded
rectangle `[isy, iey) × [isx, iex)`. -/
def srcRegion (W H T tx ty sy sx : ℕ) : Prop :=
  ty * T ≤ sy ∧ sy < min (ty * T + T) H ∧
  tx * T ≤ sx ∧ sx < min (tx * T + T) W

instance (W H T tx ty sy sx : ℕ) : Decidable (srcRegion W H T tx ty sy sx) := by
  unfold srcRegion; infer_instance

/-- One assignment `output[osy:oey, osx:oex] = output_tile[crop]` of the
tile loop, as an update of the output pixel function. -/
def writeTile {α : Type} (E : Img α → Img α) (img : Img α) (W H T P : ℕ)
    (t : ℕ × ℕ) (buf : ℕ → ℕ → α) : ℕ → ℕ → α :=
  fun oy ox =>
    if outRegion W H T t.1 t.2 oy ox then
      tileValue E img (tileCoords W H T P t.1 t.2) oy ox
    else buf oy ox

/-- Ceiling division, the `math.ceil(width / tile_size)` of the source. -/
def ceilDiv (a b : ℕ) : ℕ := (a + b - 1) / b

/-- Row-major tile enumeration: `for y in range(tiles_y): for x in
range(tiles_x)`. -/
def tileGrid (W H T : ℕ) : List (ℕ × ℕ) :=
  (List.range (ceilDiv H T)).flatMap fun ty =>
    (List.range (ceilDiv W T)).map fun tx => (tx, ty)

/-- The tiled transform `Upscaler.tile_process`: an output buffer of shape
`(H*R, W*R)` initialised to `z` (`img.new_zeros`), then each tile's cropped
engine output written into its owning output region, row-major. -/
def tile_process {α : Type} (E : Img α → Img α) (img : Img α) (T P : ℕ) (z : α) : Img α :=
  ⟨img.height * R, img.width * R,
    (tileGrid img.width img.height T).foldl
      (fun buf t => writeTile E img img.width img.height T P t buf) (fun _ _ => z)⟩

/- ------------------------------------------------------------------ -/
/- Arithmetic of tile ownership                                        -/
/- ------------------------------------------------------------------ -/

/-- One-dimensional ownership: a source coordinate `s < H` lies in the
owning interval of tile index `t` exactly when `t = s / T`. -/
lemma own1d {T : ℕ} (hT : 0 < T) {s H : ℕ} (hs : s < H) (t : ℕ) :
    (t * T ≤ s ∧ s < min (t * T + T) H) ↔ t = s / T := by
  constructor
  · rintro ⟨h1, h2⟩
    have h2' : s < t * T + T := lt_of_lt_of_le h2 (min_le_left _ _)
    have hle : t ≤ s / T := (Nat.le_div_iff_mul_le hT).mpr h1
    have hlt : s / T < t + 1 := by
      rw [Nat.div_lt_iff_lt_mul hT]
      calc s < t * T + T := h2'
      _ = (t + 1) * T := by ring
    omega
  · rintro rfl
    refine ⟨Nat.div_mul_le_self s T, lt_min ?_ hs⟩
    have := Nat.div_add_mod s T
    have := Nat.mod_lt s hT
    have hc : s / T * T = T * (s / T) := Nat.mul_comm _ _
    omega

/-- A coordinate below `H` has its owning tile index inside the
`ceil(H/T)`-sized grid. -/
lemma lt_ceilDiv_of_lt {T s H : ℕ} (hT : 0 < T) (hs : s < H) :
    s / T < ceilDiv H T := by
  have hH : 1 ≤ H := by omega
  have h1 : s / T ≤ (H - 1) / T := Nat.div_le_div_right (by omega)
  have h2 : (H - 1 + T) / T = (H - 1) / T + 1 := Nat.add_div_right _ hT
  have h3 : H + T - 1 = H - 1 + T := by omega
  unfold ceilDiv
  rw [h3, h2]
  omega

/-- Output-coordinate ownership, derived from the 1-D lemma through the
scale factor `R`. -/
lemma own1dOut {T : ℕ} (hT : 0 < T) {o H : ℕ} (ho : o < H * R) (t : ℕ) :
    (t * T * R ≤ o ∧ o < min (t * T + T) H * R) ↔ t = o / R / T := by
  have hR : 0 < R := by decide
  have hs : o / R < H := by
    rw [Nat.div_lt_iff_lt_mul hR]
    calc o < H * R := ho
    _ ≤ H * R := le_rfl
  rw [show (t * T * R ≤ o) = (t * T ≤ o / R) from
        propext (Iff.symm (Nat.le_div_iff_mul_le hR)),
      show (o < min (t * T + T) H * R) = (o / R < min (t * T + T) H) from
        propext (Iff.symm (Nat.div_lt_iff_lt_mul hR))]
  exact own1d hT hs t

/-- Membership in the tile grid. -/
lemma mem_tileGrid {W H T tx ty : ℕ} :
    (tx, ty) ∈ tileGrid W H T ↔ tx < ceilDiv W T ∧ ty < ceilDiv H T := by
  simp only [tileGrid, List.mem_flatMap, List.mem_map, List.mem_range,
    Prod.mk.injEq]
  constructor
  · rintro ⟨a, ha, b, hb, h1, h2⟩
    exact ⟨h1 ▸ hb, h2 ▸ ha⟩
  · rintro ⟨h1, h2⟩
    exact ⟨ty, h2, tx, h1, rfl, rfl⟩

/-- Decomposition of the output-region predicate into its two axes. -/
lemma outRegion_iff {W H T tx ty oy ox : ℕ} (hT : 0 < T)
    (hoy : oy < H * R) (hox : ox < W * R) :
    outRegion W H T tx ty oy ox ↔ ty = oy / R / T ∧ tx = ox / R / T := by
  unfold outRegion
  rw [show (ty * T * R ≤ oy ∧ oy < min (ty * T + T) H * R ∧
        tx * T * R ≤ ox ∧ ox < min (tx * T + T) W * R) ↔
        ((ty * T * R ≤ oy ∧ oy < min (ty * T + T) H * R) ∧
         (tx * T * R ≤ ox ∧ ox < min (tx * T + T) W * R)) from by tauto]
  rw [own1dOut hT hoy ty, own1dOut hT hox tx]

/- ------------------------------------------------------------------ -/
/- The fold over tiles                                                 -/
/- ------------------------------------------------------------------ -/

/-- If no tile of the list owns the output position, the fold leaves the
buffer value unchanged there. -/
lemma fold_not_mem {α : Type} (E : Img α → Img α) (img : Img α) (W H T P : ℕ)
    (L : List (ℕ × ℕ)) (buf : ℕ → ℕ → α) (oy ox : ℕ)
    (h : ∀ t ∈ L, ¬ outRegion W H T t.1 t.2 oy ox) :
    (L.foldl (fun b t => writeTile E img W H T P t b) buf) oy ox = buf oy ox := by
  induction L generalizing buf with
  | nil => rfl
  | cons t rest ih =>
    rw [List.foldl_cons]
    rw [ih _ (fun u hu => h u (List.mem_cons_of_mem t hu))]
    unfold writeTile
    rw [if_neg (h t (List.mem_cons_self t rest))]

/-- If a unique tile of the list owns the output position, the fold plants
that tile's cropped engine value there. -/
lemma fold_owner {α : Type} (E : Img α → Img α) (img : Img α) (W H T P : ℕ)
    (L : List (ℕ × ℕ)) (buf : ℕ → ℕ → α) (oy ox : ℕ) (t₀ : ℕ × ℕ)
    (hmem : t₀ ∈ L) (hown : outRegion W H T t₀.1 t₀.2 oy ox)
    (huniq : ∀ t ∈ L, outRegion W H T t.1 t.2 oy ox → t = t₀) :
    (L.foldl (fun b t => writeTile E img W H T P t b) buf) oy ox =
      tileValue E img (tileCoords W H T P t₀.1 t₀.2) oy ox := by
  induction L generalizing buf with
  | nil => cases hmem
  | cons t rest ih =>
    rw [List.foldl_cons]
    by_cases hrest : t₀ ∈ rest
    · exact ih _ hrest (fun u hu hu' => huniq u (List.mem_cons_of_mem t hu) hu')
    · have ht : t = t₀ := by
        rcases List.mem_cons.mp hmem with h | h
        · exact h.symm
        · exact absurd h hrest
      subst ht
      rw [fold_not_mem]
      · unfold writeTile
        rw [if_pos hown]
      · intro u hu hu'
        exact hrest ((huniq u (List.mem_cons_of_mem t hu) hu') ▸ hu)

/-- Closed form of `tile_process`: every output pixel inside the
`(H*R, W*R)` buffer carries the cropped engine value of its unique owning
tile `(ox/R/T, oy/R/T)`. -/
lemma tile_process_pix {α : Type} (E : Img α → Img α) (img : Img α)
    (T P : ℕ) (z : α) (hT : 0 < T) (oy ox : ℕ)
    (hoy : oy < img.height * R) (hox : ox < img.width * R) :
    (tile_process E img T P z).pix oy ox =
      tileValue E img
        (tileCoords img.width img.height T P (ox / R / T) (oy / R / T)) oy ox := by
  have hR : 0 < R := by decide
  set W := img.width
  set H := img.height
  have howner : outRegion W H T (ox / R / T) (oy / R / T) oy ox :=
    (outRegion_iff hT hoy hox).mpr ⟨rfl, rfl⟩
  have hmem : (ox / R / T, oy / R / T) ∈ tileGrid W H T := by
    rw [mem_tileGrid]
    have h1 : ox / R < W := by
      rw [Nat.div_lt_iff_lt_mul hR]; exact hox
    have h2 : oy / R < H := by
      rw [Nat.div_lt_iff_lt_mul hR]; exact hoy
    exact ⟨lt_ceilDiv_of_lt hT h1, lt_ceilDiv_of_lt hT h2⟩
  exact fold_owner E img W H T P (tileGrid W H T) _ oy ox _ hmem howner
    (fun t _ ht => by
      have := (outRegion_iff hT hoy hox).mp ht
      exact Prod.ext this.2 this.1)

/-- Decomposition of the source-region predicate into its two axes. -/
lemma srcRegion_iff {W H T tx ty sy sx : ℕ} (hT : 0 < T)
    (hsy : sy < H) (hsx : sx < W) :
    srcRegion W H T tx ty sy sx ↔ ty = sy / T ∧ tx = sx / T := by
  unfold srcRegion
  rw [show (ty * T ≤ sy ∧ sy < min (ty * T + T) H ∧
        tx * T ≤ sx ∧ sx < min (tx * T + T) W) ↔
        ((ty * T ≤ sy ∧ sy < min (ty * T + T) H) ∧
         (tx * T ≤ sx ∧ sx < min (tx * T + T) W)) from by tauto]
  rw [own1d hT hsy ty, own1d hT hsx tx]

/-- When the whole image fits in one tile (`W ≤ T`, `H ≤ T`), the padded
input of the single tile `(0,0)` clamps to exactly the full image. -/
lemma paddedTile_full {α : Type} (img : Img α) (T P : ℕ)
    (hW : img.width ≤ T) (hH : img.height ≤ T) :
    paddedTile img (tileCoords img.width img.height T P 0 0) = img := by
  have h1 : min (0 * T + T) img.width = img.width := by omega
  have h2 : min (0 * T + T) img.height = img.height := by omega
  refine Img.ext ?_ ?_ ?_
  · show min (min (0 * T + T) img.height + P) img.height - (0 * T - P) = img.height
    omega
  · show min (min (0 * T + T) img.width + P) img.width - (0 * T - P) = img.width
    omega
  · funext i j
    show img.pix (0 * T - P + i) (0 * T - P + j) = img.pix i j
    have : 0 * T - P = 0 := by omega
    rw [this, Nat.zero_add, Nat.zero_add]

/- ------------------------------------------------------------------ -/
/- Claim theorems: tiling                                              -/
/- ------------------------------------------------------------------ -/

/-- C1.  Tiled reassembly is exact: the assembled buffer has shape
`(H*R, W*R)`; the `ceil(W/T) × ceil(H/T)` owning regions partition the
source image (each source pixel belongs to exactly one); every output
pixel lies in the output region of exactly one grid tile; tile output
regions stay inside the `(H*R, W*R)` bounds and padded inputs are clamped
at the image edges; and each output pixel carries precisely the engine
output for its owning tile's padded input with the scaled padding margins
cropped off. -/
theorem tile_reassembly_exact {α : Type} (E : Img α → Img α) (img : Img α)
    (T P : ℕ) (z : α) (hT : 0 < T) :
    ((tile_process E img T P z).height = img.height * R ∧
     (tile_process E img T P z).width = img.width * R) ∧
    (∀ sy sx, sy < img.height → sx < img.width →
      ∃! t : ℕ × ℕ, (t.1 < ceilDiv img.width T ∧ t.2 < ceilDiv img.height T) ∧
        srcRegion img.width img.height T t.1 t.2 sy sx) ∧
    (∀ oy ox, oy < img.height * R → ox < img.width * R →
      ∃! t : ℕ × ℕ, t ∈ tileGrid img.width img.height T ∧
        outRegion img.width img.height T t.1 t.2 oy ox) ∧
    (∀ tx ty oy ox, outRegion img.width img.height T tx ty oy ox →
      oy < img.height * R ∧ ox < img.width * R) ∧
    (∀ tx ty, (tileCoords img.width img.height T P tx ty).iexp ≤ img.width ∧
      (tileCoords img.width img.height T P tx ty).ieyp ≤ img.height) ∧
    (∀ oy ox, oy < img.height * R → ox < img.width * R →
      (tile_process E img T P z).pix oy ox =
        tileValue E img
          (tileCoords img.width img.height T P (ox / R / T) (oy / R / T)) oy ox) := by
  have hR : 0 < R := by decide
  refine ⟨⟨rfl, rfl⟩, ?_, ?_, ?_, ?_, ?_⟩
  · intro sy sx hsy hsx
    refine ⟨(sx / T, sy / T),
      ⟨⟨lt_ceilDiv_of_lt hT hsx, lt_ceilDiv_of_lt hT hsy⟩,
        (srcRegion_iff hT hsy hsx).mpr ⟨rfl, rfl⟩⟩, ?_⟩
    rintro ⟨ux, uy⟩ ⟨-, hreg⟩
    have := (srcRegion_iff hT hsy hsx).mp hreg
    exact Prod.ext this.2 this.1
  · intro oy ox hoy hox
    have h1 : ox / R < img.width := by
      rw [Nat.div_lt_iff_lt_mul hR]; exact hox
    have h2 : oy / R < img.height := by
      rw [Nat.div_lt_iff_lt_mul hR]; exact hoy
    refine ⟨(ox / R / T, oy / R / T),
      ⟨mem_tileGrid.mpr ⟨lt_ceilDiv_of_lt hT h1, lt_ceilDiv_of_lt hT h2⟩,
        (outRegion_iff hT hoy hox).mpr ⟨rfl, rfl⟩⟩, ?_⟩
    rintro ⟨ux, uy⟩ ⟨-, hreg⟩
    have := (outRegion_iff hT hoy hox).mp hreg
    exact Prod.ext this.2 this.1
  · intro tx ty oy ox hreg
    obtain ⟨-, h2, -, h4⟩ := hreg
    constructor
    · exact lt_of_lt_of_le h2
        (Nat.mul_le_mul_right R (min_le_right _ _))
    · exact lt_of_lt_of_le h4
        (Nat.mul_le_mul_right R (min_le_right _ _))
  · intro tx ty
    exact ⟨min_le_right _ _, min_le_right _ _⟩
  · intro oy ox hoy hox
    exact tile_process_pix E img T P z hT oy ox hoy hox

/-- C2.  When the image fits in a single tile (`W ≤ T` and `H ≤ T`), tiled
processing is byte-identical to a single engine pass over the whole image:
same buffer dimensions (given the engine's fixed-ratio contract on this
image) and the same pixel at every output position. -/
theorem small_image_single_pass {α : Type} (E : Img α → Img α) (img : Img α)
    (T P : ℕ) (z : α) (hT : 0 < T)
    (hW : img.width ≤ T) (hH : img.height ≤ T)
    (hE : (E img).height = img.height * R ∧ (E img).width = img.width * R) :
    (tile_process E img T P z).height = (E img).height ∧
    (tile_process E img T P z).width = (E img).width ∧
    ∀ oy ox, oy < img.height * R → ox < img.width * R →
      (tile_process E img T P z).pix oy ox = (E img).pix oy ox := by
  have hR : 0 < R := by decide
  refine ⟨by rw [hE.1]; rfl, by rw [hE.2]; rfl, ?_⟩
  intro oy ox hoy hox
  rw [tile_process_pix E img T P z hT oy ox hoy hox]
  have h1 : ox / R < img.width := by
    rw [Nat.div_lt_iff_lt_mul hR]; exact hox
  have h2 : oy / R < img.height := by
    rw [Nat.div_lt_iff_lt_mul hR]; exact hoy
  have h0x : ox / R / T = 0 := Nat.div_eq_of_lt (lt_of_lt_of_le h1 hW)
  have h0y : oy / R / T = 0 := Nat.div_eq_of_lt (lt_of_lt_of_le h2 hH)
  rw [h0x, h0y]
  unfold tileValue
  rw [paddedTile_full img T P hW hH]
  have e1 : (tileCoords img.width img.height T P 0 0).isy = 0 := by
    show 0 * T = 0; omega
  have e2 : (tileCoords img.width img.height T P 0 0).isyp = 0 := by
    show 0 * T - P = 0; omega
  have e3 : (tileCoords img.width img.height T P 0 0).isx = 0 := by
    show 0 * T = 0; omega
  have e4 : (tileCoords img.width img.height T P 0 0).isxp = 0 := by
    show 0 * T - P = 0; omega
  rw [e1, e2, e3, e4]
  congr 1 <;> omega

/-- A concrete stand-in for the opaque transform engine, used only to
instantiate claim theorems: nearest-neighbour 4x replication. -/
def sampleEngine : Img ℕ → Img ℕ :=
  fun t => ⟨t.height * R, t.width * R, fun i j => t.pix (i / R) (j / R)⟩

/-- A concrete 3x5 test image. -/
def sampleImg : Img ℕ := ⟨3, 5, fun y x => y * 10 + x⟩

example : (tile_process sampleEngine sampleImg 2 1 0).pix 5 7 = 11 := by rfl

example : (tile_process sampleEngine sampleImg 2 1 0).pix 11 19 = 24 := by rfl

theorem tile_reassembly_exact_witness :
    (tile_process sampleEngine sampleImg 2 1 0).height = sampleImg.height * R ∧
    (tile_process sampleEngine sampleImg 2 1 0).width = sampleImg.width * R :=
  (tile_reassembly_exact sampleEngine sampleImg 2 1 0 (by decide)).1

theorem small_image_single_pass_witness :
    (tile_process sampleEngine sampleImg 8 10 0).height = (sampleEngine sampleImg).height ∧
    (tile_process sampleEngine sampleImg 8 10 0).width = (sampleEngine sampleImg).width ∧
    ∀ oy ox, oy < sampleImg.height * R → ox < sampleImg.width * R →
      (tile_process sampleEngine sampleImg 8 10 0).pix oy ox =
        (sampleEngine sampleImg).pix oy ox :=
  small_image_single_pass sampleEngine sampleImg 8 10 0 (by decide) (by decide)
    (by decide) ⟨rfl, rfl⟩

/- ------------------------------------------------------------------ -/
/- Request server (run_server, lines 359-383)                          -/
/- ------------------------------------------------------------------ -/

/-- Python str.strip default whitespace characters. -/
def isPyWS (c : Char) : Bool :=
  c = ' ' || c = '\t' || c = '\n' || c = '\r' || c = '\x0b' || c = '\x0c'

/-- Python's `str.strip()`: drop leading and trailing whitespace. -/
def pyStrip (s : String) : String :=
  ⟨((s.toList.dropWhile isPyWS).reverse.dropWhile isPyWS).reverse⟩

/-- Python's `str.split('|')` on the character list: `[]` yields one empty
field, and every `|` starts a new field. -/
def splitPipe : List Char → List (List Char)
  | [] => [[]]
  | c :: rest =>
    if c = '|' then [] :: splitPipe rest
    else
      match splitPipe rest with
      | [] => [[c]]
      | h :: t => (c :: h) :: t

/-- `data.split('|')` as a list of strings. -/
def pySplitPipe (s : String) : List String :=
  (splitPipe s.toList).map fun l => ⟨l⟩

/-- What the server sends back on one accepted connection: either nothing
(the connection is closed without a `sendall`) or one text reply. -/
inductive Reply
  | noReply : Reply
  | text : String → Reply
deriving DecidableEq

/-- One iteration of the accept loop, as a function of the received data:
strip; empty → `continue` with no reply; `PING` → `PONG`; field count ≠ 3 →
the literal reply `ERROR: Invalid`; otherwise `float(scale_str)` — modelled
by the parameter `pyFloat`, `none` meaning `float` raises `ValueError`,
which is caught by the loop's `except` clause, which only prints, so no
reply is sent — and on a parsed scale the reply is `upscaler.process`'s
return value (parameter `proc`).  The `Bool` records whether
`upscaler.process` was invoked. -/
def serveOne (pyFloat : String → Option ℚ) (proc : String → String → ℚ → String)
    (raw : String) : Reply × Bool :=
  if pyStrip raw = "" then (Reply.noReply, false)
  else if pyStrip raw = "PING" then (Reply.text "PONG", false)
  else if (pySplitPipe (pyStrip raw)).length ≠ 3 then
    (Reply.text "ERROR: Invalid", false)
  else
    match pyFloat ((pySplitPipe (pyStrip raw)).getD 2 "") with
    | none => (Reply.noReply, false)
    | some sc =>
        (Reply.text (proc ((pySplitPipe (pyStrip raw)).getD 0 "")
          ((pySplitPipe (pyStrip raw)).getD 1 "") sc), true)

/-- The `while True` accept loop of `run_server`, over a stream of
connections: every connection is handled by `serveOne`; the `except`
wrapper makes each iteration total, so the loop always reaches the next
accept. -/
def run_server (pyFloat : String → Option ℚ) (proc : String → String → ℚ → String)
    (conns : List String) : List (Reply × Bool) :=
  conns.map (serveOne pyFloat proc)

/-- A sample model of Python's `float()` for the concrete strings used in
instantiations: parses `2.0`, raises (returns `none`) on everything else. -/
def pyFloatSample : String → Option ℚ := fun s => if s = "2.0" then some 2 else none

/-- A sample `Upscaler.process` stand-in. -/
def sampleProc : String → String → ℚ → String := fun _ _ _ => "SUCCESS"

lemma dropWhile_all {p : Char → Bool} {l : List Char} (h : ∀ x ∈ l, p x) :
    l.dropWhile p = [] := by
  induction l with
  | nil => rfl
  | cons a l ih =>
    rw [List.dropWhile_cons, if_pos (h a (List.mem_cons_self a l))]
    exact ih fun x hx => h x (List.mem_cons_of_mem a hx)

lemma pyStrip_all_ws {raw : String} (h : raw.toList.all isPyWS = true) :
    pyStrip raw = "" := by
  have h1 : raw.toList.dropWhile isPyWS = [] :=
    dropWhile_all (by simpa [List.all_eq_true] using h)
  unfold pyStrip
  rw [h1]
  rfl

/-- C10.  A connection whose data is empty or whitespace-only after
stripping gets no reply at all, never reaches `upscaler.process`, and the
loop goes on to the next connection. -/
theorem empty_request_ignored (pyFloat : String → Option ℚ)
    (proc : String → String → ℚ → String) (raw : String) (rest : List String)
    (h : raw.toList.all isPyWS = true) :
    serveOne pyFloat proc raw = (Reply.noReply, false) ∧
    run_server pyFloat proc (raw :: rest) =
      (Reply.noReply, false) :: run_server pyFloat proc rest := by
  have h1 : serveOne pyFloat proc raw = (Reply.noReply, false) := by
    unfold serveOne
    rw [pyStrip_all_ws h]
    rfl
  exact ⟨h1, by rw [run_server, List.map_cons, h1]; rfl⟩

theorem empty_request_ignored_witness :
    serveOne pyFloatSample sampleProc " \n " = (Reply.noReply, false) ∧
    run_server pyFloatSample sampleProc [" \n ", "PING"] =
      (Reply.noReply, false) :: run_server pyFloatSample sampleProc ["PING"] :=
  empty_request_ignored pyFloatSample sampleProc " \n " ["PING"] (by decide)

/-- C8 (amended).  A non-empty request that is not `PING` and does not
split into exactly three `|`-fields is answered with exactly the string
`ERROR: Invalid` — not the longer message the spec quotes — and the
pipeline is not invoked. -/
theorem invalid_format_reply (pyFloat : String → Option ℚ)
    (proc : String → String → ℚ → String) (raw : String)
    (h1 : pyStrip raw ≠ "") (h2 : pyStrip raw ≠ "PING")
    (h3 : (pySplitPipe (pyStrip raw)).length ≠ 3) :
    serveOne pyFloat proc raw = (Reply.text "ERROR: Invalid", false) := by
  unfold serveOne
  rw [if_neg h1, if_neg h2, if_pos h3]

theorem invalid_format_reply_witness :
    serveOne pyFloatSample sampleProc "a|b" = (Reply.text "ERROR: Invalid", false) :=
  invalid_format_reply pyFloatSample sampleProc "a|b" (by decide) (by decide) (by decide)

/-- C8 counterexample: on the input `a|b` the reply is the literal
`ERROR: Invalid`, which differs from the string the claim prescribes. -/
theorem invalid_format_reply_cex :
    serveOne pyFloatSample sampleProc "a|b" = (Reply.text "ERROR: Invalid", false) ∧
    "ERROR: Invalid" ≠ "ERROR: Invalid format. Expected INPUT|OUTPUT|SCALE" :=
  ⟨by decide, by decide⟩

/-- C7 (amended).  A three-field request whose scale does not parse as a
float does not crash the server: the `ValueError` is caught by the loop's
catch-all, the pipeline is never invoked and the loop continues — but no
reply of any kind is sent on that connection. -/
theorem bad_scale_graceful (pyFloat : String → Option ℚ)
    (proc : String → String → ℚ → String) (raw : String) (rest : List String)
    (h1 : pyStrip raw ≠ "") (h2 : pyStrip raw ≠ "PING")
    (h3 : (pySplitPipe (pyStrip raw)).length = 3)
    (h4 : pyFloat ((pySplitPipe (pyStrip raw)).getD 2 "") = none) :
    serveOne pyFloat proc raw = (Reply.noReply, false) ∧
    run_server pyFloat proc (raw :: rest) =
      (Reply.noReply, false) :: run_server pyFloat proc rest := by
  have h5 : serveOne pyFloat proc raw = (Reply.noReply, false) := by
    unfold serveOne
    rw [if_neg h1, if_neg h2,
      if_neg (by omega : ¬ (pySplitPipe (pyStrip raw)).length ≠ 3), h4]
  exact ⟨h5, by rw [run_server, List.map_cons, h5]; rfl⟩

theorem bad_scale_graceful_witness :
    serveOne pyFloatSample sampleProc "a|b|zz" = (Reply.noReply, false) ∧
    run_server pyFloatSample sampleProc ["a|b|zz"] =
      (Reply.noReply, false) :: run_server pyFloatSample sampleProc [] :=
  bad_scale_graceful pyFloatSample sampleProc "a|b|zz" [] (by decide) (by decide)
    (by decide) (by decide)

/-- C7 counterexample: for `a|b|notanumber` (whose third field does not
parse as a float) the server sends no reply at all — the connection is
closed without an error reply, contrary to the claim. -/
theorem bad_scale_no_reply_cex :
    serveOne pyFloatSample sampleProc "a|b|notanumber" = (Reply.noReply, false) ∧
    pyFloatSample "notanumber" = none := ⟨by decide, by decide⟩

/-- C6 (amended).  Every per-connection error is caught inside the request
loop and the loop always continues to the next connection; whenever
`upscaler.process` is actually invoked its (string) result is sent as a
textual reply — but errors arising in the handler outside `process`, such
as a scale-parse failure, produce no reply at all. -/
theorem serve_loop_robust (pyFloat : String → Option ℚ)
    (proc : String → String → ℚ → String) (raw : String) (rest : List String) :
    run_server pyFloat proc (raw :: rest) =
      serveOne pyFloat proc raw :: run_server pyFloat proc rest ∧
    (run_server pyFloat proc (raw :: rest)).length = rest.length + 1 ∧
    ((serveOne pyFloat proc raw).2 = true →
      ∃ s, (serveOne pyFloat proc raw).1 = Reply.text s) := by
  refine ⟨rfl, by simp [run_server], ?_⟩
  unfold serveOne
  by_cases h1 : pyStrip raw = ""
  · rw [if_pos h1]; intro h; simp at h
  rw [if_neg h1]
  by_cases h2 : pyStrip raw = "PING"
  · rw [if_pos h2]; intro h; simp at h
  rw [if_neg h2]
  by_cases h3 : (pySplitPipe (pyStrip raw)).length ≠ 3
  · rw [if_pos h3]; intro h; simp at h
  rw [if_neg h3]
  cases h4 : pyFloat ((pySplitPipe (pyStrip raw)).getD 2 "") with
  | none => intro h; simp at h
  | some sc => exact fun _ => ⟨_, rfl⟩

/-- C6 counterexample: the connection carrying `in.png|out.png|2.x` hits a
scale-parse error, and the server sends no reply — the error is caught
but is not converted into a textual error reply to the client. -/
theorem serve_error_without_reply_cex :
    serveOne pyFloatSample sampleProc "in.png|out.png|2.x" = (Reply.noReply, false) ∧
    pyFloatSample "2.x" = none := ⟨by decide, by decide⟩

theorem serve_loop_robust_witness :
    run_server pyFloatSample sampleProc ["a|b|2.0"] =
      serveOne pyFloatSample sampleProc "a|b|2.0" ::
        run_server pyFloatSample sampleProc [] ∧
    (run_server pyFloatSample sampleProc ["a|b|2.0"]).length =
      ([] : List String).length + 1 ∧
    ((serveOne pyFloatSample sampleProc "a|b|2.0").2 = true →
      ∃ s, (serveOne pyFloatSample sampleProc "a|b|2.0").1 = Reply.text s) :=
  serve_loop_robust pyFloatSample sampleProc "a|b|2.0" []

/- ------------------------------------------------------------------ -/
/- Failure atomicity of Upscaler.process (lines 208-353)               -/
/- ------------------------------------------------------------------ -/

/-- Outcome of one `Upscaler.process` call: the returned status string and
the output path actually written (`cv2.imwrite`, line 348), if any. -/
structure ProcOutcome where
  status : String
  written : Option String
deriving DecidableEq

/-- `Upscaler.process`: `cv2.imread` (parameter `imread`, `none` for an
unreadable image) guards the whole body; the transform phase (tensor
preparation, `tile_process`, resize — parameter `transform`) and the
post-processing phase (parameter `postproc`) may raise, which the
enclosing `try/except` turns into an `ERROR: <e>` return; `cv2.imwrite`
runs only after every stage succeeded, followed by `return "SUCCESS"`. -/
def process {α : Type} (imread : String → Option α)
    (transform : α → Except String α) (postproc : α → Except String α)
    (input output : String) : ProcOutcome :=
  match imread input with
  | none => ⟨"ERROR: Could not read image " ++ input, none⟩
  | some img =>
    match transform img with
    | Except.error e => ⟨"ERROR: " ++ e, none⟩
    | Except.ok mid =>
      match postproc mid with
      | Except.error e => ⟨"ERROR: " ++ e, none⟩
      | Except.ok _ => ⟨"SUCCESS", some output⟩

lemma errorPrefix_append (pre tail : String)
    (hp : pre.toList.take 5 = "ERROR".toList) (hl : 5 ≤ pre.toList.length) :
    (pre ++ tail).toList.take 5 = "ERROR".toList := by
  have h : (pre ++ tail).toList = pre.toList ++ tail.toList := by
    simp [String.toList, String.data_append]
  rw [h, List.take_append_of_le_length hl, hp]

/-- C5.  Failure atomicity: every `process` call either returns `SUCCESS`,
or returns a status beginning with `ERROR` and writes nothing; and a file
is written at the requested output path only when the read, the transform
and the post-processing all succeeded. -/
theorem failure_atomicity {α : Type} (imread : String → Option α)
    (transform postproc : α → Except String α) (input output : String) :
    ((process imread transform postproc input output).status = "SUCCESS" ∨
      ((process imread transform postproc input output).status.toList.take 5 =
          "ERROR".toList ∧
        (process imread transform postproc input output).written = none)) ∧
    ((process imread transform postproc input output).written = some output →
      ∃ img mid fin, imread input = some img ∧ transform img = Except.ok mid ∧
        postproc mid = Except.ok fin) := by
  cases hr : imread input with
  | none =>
    have hpe : process imread transform postproc input output =
        ⟨"ERROR: Could not read image " ++ input, none⟩ := by
      simp only [process, hr]
    rw [hpe]
    exact ⟨Or.inr ⟨errorPrefix_append _ _ (by decide) (by decide), rfl⟩,
      fun h => nomatch h⟩
  | some img =>
    cases ht : transform img with
    | error e =>
      have hpe : process imread transform postproc input output =
          ⟨"ERROR: " ++ e, none⟩ := by
        simp only [process, hr, ht]
      rw [hpe]
      exact ⟨Or.inr ⟨errorPrefix_append "ERROR: " _ (by decide) (by decide), rfl⟩,
        fun h => nomatch h⟩
    | ok mid =>
      cases hp : postproc mid with
      | error e =>
        have hpe : process imread transform postproc input output =
            ⟨"ERROR: " ++ e, none⟩ := by
          simp only [process, hr, ht, hp]
        rw [hpe]
        exact ⟨Or.inr ⟨errorPrefix_append "ERROR: " _ (by decide) (by decide), rfl⟩,
          fun h => nomatch h⟩
      | ok fin =>
        have hpe : process imread transform postproc input output =
            ⟨"SUCCESS", some output⟩ := by
          simp only [process, hr, ht, hp]
        rw [hpe]
        exact ⟨Or.inl rfl, fun _ => ⟨img, mid, fin, rfl, ht, hp⟩⟩

/-- An image reader that fails on every path, for instantiating C5 at the
spec's own end-to-end example `/tmp/missing.png`. -/
def sampleReadFail : String → Option ℕ := fun _ => none

/-- A processing stage that always succeeds, for instantiating C5. -/
def sampleStage : ℕ → Except String ℕ := Except.ok

theorem failure_atomicity_witness :
    ((process sampleReadFail sampleStage sampleStage "/tmp/missing.png" "/tmp/out.png").status
        = "SUCCESS" ∨
      ((process sampleReadFail sampleStage sampleStage "/tmp/missing.png" "/tmp/out.png").status.toList.take 5 =
          "ERROR".toList ∧
        (process sampleReadFail sampleStage sampleStage "/tmp/missing.png" "/tmp/out.png").written = none)) ∧
    ((process sampleReadFail sampleStage sampleStage "/tmp/missing.png" "/tmp/out.png").written = some "/tmp/out.png" →
      ∃ img mid fin, sampleReadFail "/tmp/missing.png" = some img ∧
        sampleStage img = Except.ok mid ∧ sampleStage mid = Except.ok fin) :=
  failure_atomicity sampleReadFail sampleStage sampleStage "/tmp/missing.png" "/tmp/out.png"

/- ------------------------------------------------------------------ -/
/- Scale normalization (Upscaler.process, lines 265-275)               -/
/- ------------------------------------------------------------------ -/

/-- `target_w = int(in_w * scale)` with `in_w = out_w / 4` (lines 268-269).
Python float arithmetic is modelled as exact rational arithmetic;
`int()` on a nonnegative value is the floor. -/
def target_w (out_w : ℕ) (scale : ℚ) : ℕ := Int.toNat ⌊((out_w : ℚ) / 4) * scale⌋

/-- `target_h = int(out_h * scale / 4)` (line 270). -/
def target_h (out_h : ℕ) (scale : ℚ) : ℕ := Int.toNat ⌊(out_h : ℚ) * scale / 4⌋

/-- The resample guard `if out_w != target_w` (line 272). -/
def needsResample (out_w : ℕ) (scale : ℚ) : Bool := out_w != target_w out_w scale

/-- Shape of the buffer after the resize stage: unchanged when the guard
is false, else exactly `(target_h, target_w)` (`F.interpolate(size=...)`,
line 274). -/
def resampledShape (out_h out_w : ℕ) (scale : ℚ) : ℕ × ℕ :=
  if out_w = target_w out_w scale then (out_h, out_w)
  else (target_h out_h scale, target_w out_w scale)

/-- Modelled from the spec's words (§4.3), for the refinement comparison:
target dimensions derived independently from each original dimension,
`(floor(w*scale), floor(h*scale))`. -/
def specTargets (w h : ℕ) (scale : ℚ) : ℕ × ℕ :=
  (Int.toNat ⌊(w : ℚ) * scale⌋, Int.toNat ⌊(h : ℚ) * scale⌋)

/-- C3.  Scale normalization: on the engine's `R`-times buffer
`(out_h, out_w) = (R*h, R*w)`, the computed targets equal
`floor(w*scale)` and `floor(h*scale)` — each derived from its own
original dimension, agreeing with the spec's independent formulas; no
resample happens exactly when `target_w = R*w`; when a resample happens
the result shape is exactly `(target_h, target_w)`; and `scale = R/2 = 2`
gives exactly half the `R`-times buffer's dimensions. -/
theorem scale_normalization (h w : ℕ) (scale : ℚ) (hs : 0 < scale)
    (hh : 0 < h) (hw : 0 < w) :
    (target_w (R * w) scale = Int.toNat ⌊(w : ℚ) * scale⌋ ∧
     target_h (R * h) scale = Int.toNat ⌊(h : ℚ) * scale⌋) ∧
    specTargets w h scale = (target_w (R * w) scale, target_h (R * h) scale) ∧
    (needsResample (R * w) scale = false ↔ target_w (R * w) scale = R * w) ∧
    (needsResample (R * w) scale = true →
      resampledShape (R * h) (R * w) scale =
        (target_h (R * h) scale, target_w (R * w) scale)) ∧
    (scale = 2 →
      resampledShape (R * h) (R * w) scale = (R * h / 2, R * w / 2)) := by
  have ew : (((R * w : ℕ) : ℚ) / 4) * scale = (w : ℚ) * scale := by
    have : ((R * w : ℕ) : ℚ) = 4 * (w : ℚ) := by
      push_cast [R]
      ring
    rw [this]
    ring
  have eh : ((R * h : ℕ) : ℚ) * scale / 4 = (h : ℚ) * scale := by
    have : ((R * h : ℕ) : ℚ) = 4 * (h : ℚ) := by
      push_cast [R]
      ring
    rw [this]
    ring
  have hw' : target_w (R * w) scale = Int.toNat ⌊(w : ℚ) * scale⌋ := by
    unfold target_w
    rw [ew]
  have hh' : target_h (R * h) scale = Int.toNat ⌊(h : ℚ) * scale⌋ := by
    unfold target_h
    rw [eh]
  refine ⟨⟨hw', hh'⟩, by rw [specTargets, hw', hh'], ?_, ?_, ?_⟩
  · unfold needsResample
    constructor
    · intro hb
      have := bne_eq_false_iff_eq.mp hb
      omega
    · intro he
      exact bne_eq_false_iff_eq.mpr he.symm
  · intro hb
    unfold needsResample at hb
    have hne : R * w ≠ target_w (R * w) scale := bne_iff_ne.mp hb
    unfold resampledShape
    rw [if_neg hne]
  · intro h2
    subst h2
    have hwv : target_w (R * w) 2 = 2 * w := by
      rw [hw']
      have : (w : ℚ) * 2 = ((2 * w : ℕ) : ℚ) := by push_cast; ring
      rw [this, Int.floor_natCast]
      omega
    have hhv : target_h (R * h) 2 = 2 * h := by
      rw [hh']
      have : (h : ℚ) * 2 = ((2 * h : ℕ) : ℚ) := by push_cast; ring
      rw [this, Int.floor_natCast]
      omega
    have hne : R * w ≠ target_w (R * w) 2 := by
      rw [hwv]
      simp [R]
      omega
    unfold resampledShape
    rw [if_neg hne, hwv, hhv]
    have e1 : R * h / 2 = 2 * h := by simp [R]; omega
    have e2 : R * w / 2 = 2 * w := by simp [R]; omega
    rw [e1, e2]

theorem scale_normalization_witness :
    ((target_w (R * 5) 2 = Int.toNat ⌊(5 : ℚ) * 2⌋ ∧
      target_h (R * 3) 2 = Int.toNat ⌊(3 : ℚ) * 2⌋) ∧
     specTargets 5 3 2 = (target_w (R * 5) 2, target_h (R * 3) 2) ∧
     (needsResample (R * 5) 2 = false ↔ target_w (R * 5) 2 = R * 5) ∧
     (needsResample (R * 5) 2 = true →
       resampledShape (R * 3) (R * 5) 2 = (target_h (R * 3) 2, target_w (R * 5) 2)) ∧
     ((2 : ℚ) = 2 → resampledShape (R * 3) (R * 5) 2 = (R * 3 / 2, R * 5 / 2))) :=
  scale_normalization 3 5 2 (by norm_num) (by decide) (by decide)

/- ------------------------------------------------------------------ -/
/- Alpha channel flow (Upscaler.process, lines 216-289)                -/
/- ------------------------------------------------------------------ -/

/-- A multi-channel buffer: `channels` planes, addressed `pix y x c`. -/
structure CBuf (α : Type) where
  channels : ℕ
  pix : ℕ → ℕ → ℕ → α

/-- NumPy `np.dstack((output, alpha))` (line 286): append the alpha plane
as one extra channel after the colour channels. -/
def dstackAlpha {α : Type} (color : CBuf α) (alphaPlane : ℕ → ℕ → α) : CBuf α :=
  ⟨color.channels + 1,
    fun y x c => if c < color.channels then color.pix y x c else alphaPlane y x⟩

/-- The RGB→BGR swizzle `output[:, :, [2, 1, 0]]` (line 289): the result
has exactly the three listed channels; its channel `c` reads the input's
channel `2 - c`. -/
def bgrSwizzle {α : Type} (b : CBuf α) : CBuf α :=
  ⟨3, fun y x c => b.pix y x (2 - c)⟩

/-- Lines 283-289 for a 4-channel input: the resized alpha plane is
stacked on as channel 3, then the BGR swizzle is applied; the result is
the buffer that flows into the enhancement stack and `cv2.imwrite`. -/
def alphaMergeAndSwizzle {α : Type} (color : CBuf α) (alphaPlane : ℕ → ℕ → α) : CBuf α :=
  bgrSwizzle (dstackAlpha color alphaPlane)

/-- A 3-channel colour buffer whose channels 0,1,2 hold 10,11,12. -/
def sampleColor : CBuf ℕ := ⟨3, fun _ _ c => c + 10⟩

/-- An alpha plane holding 77 everywhere. -/
def sampleAlpha : ℕ → ℕ → ℕ := fun _ _ => 77

/-- C4 evaluated at a failing input (any 4-channel image): after the
dstack the buffer has 4 channels with alpha (77) as channel 3, but the
immediately following BGR swizzle leaves a 3-channel buffer holding only
the colour values — the alpha plane never reaches the post-processing
pipeline or the written file. -/
theorem alpha_dropped_at_bgr_swizzle :
    (dstackAlpha sampleColor sampleAlpha).channels = 4 ∧
    (dstackAlpha sampleColor sampleAlpha).pix 0 0 3 = 77 ∧
    (alphaMergeAndSwizzle sampleColor sampleAlpha).channels = 3 ∧
    (alphaMergeAndSwizzle sampleColor sampleAlpha).pix 0 0 0 = 12 ∧
    (alphaMergeAndSwizzle sampleColor sampleAlpha).pix 0 0 1 = 11 ∧
    (alphaMergeAndSwizzle sampleColor sampleAlpha).pix 0 0 2 = 10 ∧
    sampleAlpha 0 0 = 77 :=
  ⟨rfl, rfl, rfl, rfl, rfl, rfl, rfl⟩

/- ------------------------------------------------------------------ -/
/- Enhancement stack (Upscaler.process, lines 297-340)                 -/
/- ------------------------------------------------------------------ -/

/-- A colour buffer for the post-processing stack: uint8 channel values
(`pix y x c : ℕ`, intended range 0-255). -/
@[ext]
structure PImg where
  h : ℕ
  w : ℕ
  pix : ℕ → ℕ → ℕ → ℕ

/-- All channel values fit in a uint8. -/
def InRange (img : PImg) : Prop := ∀ y x c, img.pix y x c ≤ 255

/-- The rounding saturate_cast of `cv2.addWeighted`: round to integer and
clamp to [0, 255] (negative values clamp to 0 through `Int.toNat`). -/
def satRound (q : ℚ) : ℕ := min 255 (Int.toNat ⌊q + 1/2⌋)

/-- `cv2.addWeighted(a, wa, b, wb, 0)`: per-channel weighted sum with
saturation. -/
def addWeighted (a : PImg) (wa : ℚ) (b : PImg) (wb : ℚ) : PImg :=
  ⟨a.h, a.w, fun y x c => satRound (wa * a.pix y x c + wb * b.pix y x c)⟩

/-- Stage A (lines 298-299): unsharp mask — blend the image at weight 1.5
with its σ=1.0 Gaussian blur at weight -0.5.  The blur itself is the cv2
primitive `gblur1`. -/
def unsharpStage (gblur1 : PImg → PImg) (img : PImg) : PImg :=
  addWeighted img (3/2) (gblur1 img) (-(1/2))

/-- Stage B (lines 302-305): gamma correction through the 256-entry lookup
table the source builds from gamma 0.95 (entries are uint8 after
`astype("uint8")`, recorded by the range hypothesis on `lut`); `cv2.LUT`
maps every channel value through the table. -/
def gammaStage (lut : ℕ → ℕ) (img : PImg) : PImg :=
  ⟨img.h, img.w, fun y x c => lut (img.pix y x c)⟩

/-- `cv2.threshold(gray, 210, 255, THRESH_BINARY)` (line 315): strictly
above 210 maps to 255, else to 0. -/
def threshold210 (g : ℕ → ℕ → ℕ) : ℕ → ℕ → ℕ :=
  fun y x => if 210 < g y x then 255 else 0

/-- `cv2.cvtColor(blur, COLOR_GRAY2BGR)` (line 318): replicate the gray
plane on all three channels. -/
def gray2bgr (hh ww : ℕ) (g : ℕ → ℕ → ℕ) : PImg := ⟨hh, ww, fun y x _ => g y x⟩

/-- Stage C (lines 309-324): bloom.  `resizeDown` models the quarter-size
`cv2.resize`, `toGray` the BGR→GRAY conversion, `gblur11` the σ=11
Gaussian blur, `resizeUp` the resize back to the full output shape — all
external cv2 primitives; the threshold, the gray→BGR replication and the
final `cv2.addWeighted(output, 1.0, bloom, 0.4, 0)` are embedded
directly. -/
def bloomStage (resizeDown : PImg → PImg) (toGray : PImg → ℕ → ℕ → ℕ)
    (gblur11 : (ℕ → ℕ → ℕ) → ℕ → ℕ → ℕ) (resizeUp : PImg → ℕ → ℕ → PImg)
    (img : PImg) : PImg :=
  addWeighted img 1
    (resizeUp
      (gray2bgr (resizeDown img).h (resizeDown img).w
        (gblur11 (threshold210 (toGray (resizeDown img)))))
      img.h img.w)
    (2/5)

/-- Stage D (lines 327-334): vignette.  `mask` is the separable Gaussian
window normalised to peak 1 (`mask / mask.max()`, line 331); each of the
three colour channels is scaled by `1 - 0.15 + 0.15*mask` and the NumPy
store back into the uint8 array truncates. -/
def vignetteStage (mask : ℕ → ℕ → ℚ) (img : PImg) : PImg :=
  ⟨img.h, img.w, fun y x c =>
    if c < 3 then Int.toNat ⌊(img.pix y x c : ℚ) * (1 - 3/20 + 3/20 * mask y x)⌋
    else img.pix y x c⟩

/-- Stage E (lines 337-340): vibrance.  HSV conversion and back are cv2
primitives (`toHSV`, `toBGR`); the saturation channel (index 1) is scaled
by 1.15, clipped to [0, 255] (`np.clip`) and truncated to uint8. -/
def vibranceStage (toHSV toBGR : PImg → PImg) (img : PImg) : PImg :=
  toBGR
    ⟨(toHSV img).h, (toHSV img).w, fun y x c =>
      if c = 1 then min 255 (Int.toNat ⌊((toHSV img).pix y x 1 : ℚ) * (23/20)⌋)
      else (toHSV img).pix y x c⟩

/-- The enhancement stack of `Upscaler.process` (lines 297-340): stages
A-E in source order, each stage's output feeding the next. -/
def enhancementStack (gblur1 : PImg → PImg) (lut : ℕ → ℕ)
    (resizeDown : PImg → PImg) (toGray : PImg → ℕ → ℕ → ℕ)
    (gblur11 : (ℕ → ℕ → ℕ) → ℕ → ℕ → ℕ) (resizeUp : PImg → ℕ → ℕ → PImg)
    (mask : ℕ → ℕ → ℚ) (toHSV toBGR : PImg → PImg) (img : PImg) : PImg :=
  vibranceStage toHSV toBGR
    (vignetteStage mask
      (bloomStage resizeDown toGray gblur11 resizeUp
        (gammaStage lut
          (unsharpStage gblur1 img))))

lemma satRound_le (q : ℚ) : satRound q ≤ 255 := min_le_left _ _

lemma toNat_floor_le {q : ℚ} (h : q ≤ 255) : Int.toNat ⌊q⌋ ≤ 255 := by
  have h1 : ⌊q⌋ ≤ ⌊(255 : ℚ)⌋ := Int.floor_le_floor h
  have h2 : ⌊(255 : ℚ)⌋ = 255 := by norm_num
  omega

/-- C9.  The post-processing stack applies exactly the five stages in the
fixed source order — unsharp mask, gamma LUT, bloom, vignette, vibrance —
each stage's output feeding the next; after every stage all channel values
lie in 0-255 (no overflow wraparound); and the gamma stage depends on the
lookup table only through its 256 uint8-indexed entries. -/
theorem enhancement_stack_order_and_range
    (gblur1 : PImg → PImg) (lut : ℕ → ℕ) (resizeDown : PImg → PImg)
    (toGray : PImg → ℕ → ℕ → ℕ) (gblur11 : (ℕ → ℕ → ℕ) → ℕ → ℕ → ℕ)
    (resizeUp : PImg → ℕ → ℕ → PImg) (mask : ℕ → ℕ → ℚ)
    (toHSV toBGR : PImg → PImg) (img : PImg)
    (hlut : ∀ i, lut i ≤ 255)
    (hmask : ∀ y x, 0 ≤ mask y x ∧ mask y x ≤ 1)
    (hBGR : ∀ b, InRange (toBGR b)) :
    (enhancementStack gblur1 lut resizeDown toGray gblur11 resizeUp mask toHSV toBGR img =
      vibranceStage toHSV toBGR
        (vignetteStage mask
          (bloomStage resizeDown toGray gblur11 resizeUp
            (gammaStage lut
              (unsharpStage gblur1 img))))) ∧
    InRange (unsharpStage gblur1 img) ∧
    InRange (gammaStage lut (unsharpStage gblur1 img)) ∧
    InRange (bloomStage resizeDown toGray gblur11 resizeUp
      (gammaStage lut (unsharpStage gblur1 img))) ∧
    InRange (vignetteStage mask
      (bloomStage resizeDown toGray gblur11 resizeUp
        (gammaStage lut (unsharpStage gblur1 img)))) ∧
    InRange (enhancementStack gblur1 lut resizeDown toGray gblur11 resizeUp
      mask toHSV toBGR img) ∧
    (∀ lut2 : ℕ → ℕ, (∀ i, i < 256 → lut i = lut2 i) →
      gammaStage lut (unsharpStage gblur1 img) =
        gammaStage lut2 (unsharpStage gblur1 img)) := by
  have hs1 : InRange (unsharpStage gblur1 img) := fun y x c => satRound_le _
  have hs3 : InRange (bloomStage resizeDown toGray gblur11 resizeUp
      (gammaStage lut (unsharpStage gblur1 img))) := fun y x c => satRound_le _
  have hs4 : InRange (vignetteStage mask
      (bloomStage resizeDown toGray gblur11 resizeUp
        (gammaStage lut (unsharpStage gblur1 img)))) := by
    intro y x c
    show (if c < 3 then _ else _) ≤ 255
    by_cases hc : c < 3
    · rw [if_pos hc]
      apply toNat_floor_le
      have hp : ((bloomStage resizeDown toGray gblur11 resizeUp
          (gammaStage lut (unsharpStage gblur1 img))).pix y x c : ℚ) ≤ 255 := by
        exact_mod_cast hs3 y x c
      have hp0 : (0 : ℚ) ≤ ((bloomStage resizeDown toGray gblur11 resizeUp
          (gammaStage lut (unsharpStage gblur1 img))).pix y x c : ℚ) := by
        positivity
      have hf : (1 - 3/20 + 3/20 * mask y x : ℚ) ≤ 1 := by
        linarith [(hmask y x).2]
      nlinarith
    · rw [if_neg hc]
      exact hs3 y x c
  refine ⟨rfl, hs1, fun y x c => hlut _, hs3, hs4, hBGR _, ?_⟩
  intro lut2 hsame
  refine PImg.ext rfl rfl ?_
  funext y x c
  show lut ((unsharpStage gblur1 img).pix y x c) =
    lut2 ((unsharpStage gblur1 img).pix y x c)
  exact hsame _ (by have := hs1 y x c; omega)

/-- A sample 256-entry lookup table. -/
def sampleLut : ℕ → ℕ := fun _ => 128

/-- A sample BGR→GRAY conversion reading channel 0. -/
def sampleGray : PImg → ℕ → ℕ → ℕ := fun i y x => i.pix y x 0

/-- The all-zero 1x1 buffer. -/
def zeroImg : PImg := ⟨1, 1, fun _ _ _ => 0⟩

/-- A 1x1 buffer with out-of-range values, exercising the clamping. -/
def hotImg : PImg := ⟨1, 1, fun _ _ _ => 300⟩

theorem enhancement_stack_order_and_range_witness :
    InRange (enhancementStack id sampleLut id sampleGray id (fun b _ _ => b)
      (fun _ _ => 1) id (fun _ => zeroImg) hotImg) :=
  (enhancement_stack_order_and_range id sampleLut id sampleGray id
    (fun b _ _ => b) (fun _ _ => 1) id (fun _ => zeroImg) hotImg
    (fun _ => by norm_num [sampleLut])
    (fun _ _ => by norm_num)
    (fun _ _ _ _ => Nat.zero_le 255)).2.2.2.2.2.1

end VideoPipeline
